import Mathlib

/-!
Verification development for the filefreezer storage engine and client
reconciliation code (`storage.go`, `cmd/freezer/routes/routes.go`).

The SQLite tables are embedded as association lists keyed by their
PRIMARY KEY column.  The schema declares `UserID` the primary key of
`Users`, `Perms` and `UserInfo`, `FileID` the primary key of `FileInfo`,
and — notably — `FileID` alone the primary key of `FileChunks`
(`createFileChunksTable`), so a file has at most one chunk row at a time
and `INSERT OR REPLACE` replaces whatever row the file had.  Primary-key
uniqueness is modelled by a lookup that returns the first binding and by
insert-or-replace erasing every binding of the key.

Go `int`/`int64` columns are embedded as `Int`; chunk blobs as `List Nat`
(byte values).  Each Go function that can fail returns `Except` with the
error kinds of the specification; returning `.error` models the
transaction rollback of `Storage.transact`: no new state is produced.
-/

namespace Filefreezer

/-- A row of the FileChunks table (minus the FileID key): the stored chunk
number, chunk hash and chunk bytes. -/
structure FileChunkRow where
  chunkNum : Int
  chunkHash : String
  chunk : List Nat
deriving DecidableEq, Repr

/-- A row of the FileInfo table (minus the FileID key). -/
structure FileInfoRow where
  userID : Int
  fileName : String
  lastMod : Int
  chunkCount : Int
  fileHash : String
deriving DecidableEq, Repr

/-- A row of the UserInfo table (minus the UserID key): current allocated
byte count and revision counter. -/
structure UserInfoRow where
  allocated : Int
  revision : Int
deriving DecidableEq, Repr

/-- Association list keyed by an integer primary key. -/
abbrev Table (α : Type) := List (Int × α)

/-- Lookup of a primary key: the first binding wins (under primary-key
uniqueness there is at most one). -/
def lookupA {α : Type} (k : Int) : Table α → Option α
  | [] => none
  | (k', v) :: rest => if k' = k then some v else lookupA k rest

/-- Erase every binding of a primary key. -/
def eraseA {α : Type} (k : Int) : Table α → Table α
  | [] => []
  | (k', v) :: rest => if k' = k then eraseA k rest else (k', v) :: eraseA k rest

/-- SQL `INSERT OR REPLACE` on a table whose primary key is `k`'s column:
any existing binding of `k` is dropped and the new row is inserted. -/
def insertA {α : Type} (k : Int) (v : α) (l : Table α) : Table α :=
  (k, v) :: eraseA k l

/-- The in-memory image of the five-table database together with the
server's configured maximum chunk size (`Storage.ChunkSize`). The Users
table carries no data relevant to the claims and is omitted. -/
structure Storage where
  chunkSize : Int
  perms : Table Int
  userInfo : Table UserInfoRow
  fileInfo : Table FileInfoRow
  fileChunks : Table FileChunkRow
deriving DecidableEq, Repr

/-- Decidable equality for `Except` results, so that concrete runs of the
embedded operations can be checked by `decide`. -/
instance exceptDecEq {ε α : Type} [DecidableEq ε] [DecidableEq α] :
    DecidableEq (Except ε α) := fun x y =>
  match x, y with
  | .error a, .error b =>
    if h : a = b then .isTrue (by rw [h]) else .isFalse (fun hc => by cases hc; exact h rfl)
  | .error _, .ok _ => .isFalse (fun hc => by cases hc)
  | .ok _, .error _ => .isFalse (fun hc => by cases hc)
  | .ok a, .ok b =>
    if h : a = b then .isTrue (by rw [h]) else .isFalse (fun hc => by cases hc; exact h rfl)

/-- Abstract error kinds of the specification's §7 for the storage verbs. -/
inductive StorageErr where
  | notFound
  | notOwner
  | quotaExceeded
  | chunkTooLarge
deriving DecidableEq, Repr

/-- Result of the SQL query `getFileChunk` (`SELECT ChunkHash, Chunk FROM
FileChunks WHERE FileID = ? AND ChunkNum = ?`): under the `FileID` primary
key the file's sole row is looked up and returned only when its stored
chunk number matches. -/
def chunkRowLookup (s : Storage) (fileID chunkNumber : Int) : Option FileChunkRow :=
  match lookupA fileID s.fileChunks with
  | some row => if row.chunkNum = chunkNumber then some row else none
  | none => none

/-- SQL `DELETE FROM FileChunks WHERE FileID = ? AND ChunkNum = ?`. -/
def deleteChunkRows (fileID chunkNumber : Int) : Table FileChunkRow → Table FileChunkRow
  | [] => []
  | p :: rest =>
    if p.1 = fileID ∧ p.2.chunkNum = chunkNumber then deleteChunkRows fileID chunkNumber rest
    else p :: deleteChunkRows fileID chunkNumber rest

/-- Number of FileChunks rows matched by `FileID = ? AND ChunkNum = ?`,
the affected-row count of `removeFileChunk`. -/
def countChunkRows (fileID chunkNumber : Int) : Table FileChunkRow → Nat
  | [] => 0
  | p :: rest =>
    (if p.1 = fileID ∧ p.2.chunkNum = chunkNumber then 1 else 0) +
      countChunkRows fileID chunkNumber rest

/-- `Storage.GetFileChunk` (storage.go): reads the chunk row by fileID and
chunk number with no userID parameter and no ownership check. -/
def GetFileChunk (s : Storage) (fileID chunkNumber : Int) :
    Except StorageErr (String × List Nat) :=
  match chunkRowLookup s fileID chunkNumber with
  | some row => .ok (row.chunkHash, row.chunk)
  | none => .error .notFound

/-- `Storage.GetFileInfo` (storage.go): inside one transaction, read the
owning user id for the fileID (`getFileInfoOwner`), fail unless it equals
the caller, then load and return the FileInfo row. -/
def GetFileInfo (s : Storage) (userID fileID : Int) : Except StorageErr FileInfoRow :=
  match lookupA fileID s.fileInfo with
  | none => .error .notFound
  | some fi =>
    if fi.userID = userID then .ok fi else .error .notOwner

/-- `Storage.AddFileChunk` (storage.go): reject a chunk longer than the
configured chunk size; then inside one transaction check ownership, read
quota and `(allocated, revision)`, fail when `quota - allocated <
len(chunk)`, insert-or-replace the chunk row (primary key `FileID`), and
run `updateUserInfo` adding `len(chunk)` to `allocated` and `1` to
`revision`.  An error models the rollback: no state is produced. -/
def AddFileChunk (s : Storage) (userID fileID chunkNumber : Int)
    (chunkHash : String) (chunk : List Nat) : Except StorageErr Storage :=
  let chunkLength : Int := chunk.length
  if chunkLength > s.chunkSize then .error .chunkTooLarge
  else
    match lookupA fileID s.fileInfo with
    | none => .error .notFound
    | some fi =>
      if fi.userID = userID then
        match lookupA userID s.perms with
        | none => .error .notFound
        | some quota =>
          match lookupA userID s.userInfo with
          | none => .error .notFound
          | some ui =>
            if quota - ui.allocated < chunkLength then .error .quotaExceeded
            else
              .ok { s with
                fileChunks := insertA fileID ⟨chunkNumber, chunkHash, chunk⟩ s.fileChunks,
                userInfo :=
                  insertA userID ⟨ui.allocated + chunkLength, ui.revision + 1⟩ s.userInfo }
      else .error .notOwner

/-- `Storage.RemoveFileChunk` (storage.go): inside one transaction check
ownership, read the existing chunk row via the `getFileChunk` query (its
length is the allocation to give back; a missing row fails the scan),
delete the row requiring at least one affected row, and run
`updateUserInfo` with the negated length.  Returns `true` paired with the
committed state on success, mirroring the Go `(bool, error)` result. -/
def RemoveFileChunk (s : Storage) (userID fileID chunkNumber : Int) :
    Except StorageErr (Bool × Storage) :=
  match lookupA fileID s.fileInfo with
  | none => .error .notFound
  | some fi =>
    if fi.userID = userID then
      match chunkRowLookup s fileID chunkNumber with
      | none => .error .notFound
      | some row =>
        let allocationCount : Int := row.chunk.length
        if countChunkRows fileID chunkNumber s.fileChunks = 0 then .error .notFound
        else
          match lookupA userID s.userInfo with
          | none => .error .notFound
          | some ui =>
            .ok (true, { s with
              fileChunks := deleteChunkRows fileID chunkNumber s.fileChunks,
              userInfo :=
                insertA userID ⟨ui.allocated - allocationCount, ui.revision + 1⟩ s.userInfo })
    else .error .notOwner

/-- Insert an integer into a sorted list keeping it sorted; helper for the
embedding of Go's `sort.Ints`. -/
def insertSorted (x : Int) : List Int → List Int
  | [] => [x]
  | y :: ys => if x ≤ y then x :: y :: ys else y :: insertSorted x ys

/-- Go stdlib `sort.Ints`: sort ascending (insertion sort; extensionally
the stdlib sort on the multiset of elements). -/
def sortInts (l : List Int) : List Int := l.foldr insertSorted []

/-- Go stdlib `sort.SearchInts(a, x)`: for a sorted slice, the smallest
index `i` with `a[i] ≥ x` — the insertion point — or `len(a)` when every
element is smaller. -/
def searchInts (a : List Int) (x : Int) : Nat :=
  match a with
  | [] => 0
  | y :: ys => if x ≤ y then 0 else searchInts ys x + 1

/-- The chunk numbers of every FileChunks row of a file, the result set of
`getAllFileChunksByID` (`SELECT ChunkNum, ... WHERE FileID = ?`). -/
def knownChunkNums (fileID : Int) (l : Table FileChunkRow) : List Int :=
  (l.filter fun p => p.1 = fileID).map fun p => p.2.chunkNum

/-- The loop of `GetMissingChunkNumbersForFile` (storage.go lines 450-460)
over the sorted known chunk numbers: for each `i` in `[0, chunkCount)` the
code appends `i` to the missing list only when
`sort.SearchInts(knownChunks, i) >= len(knownChunks)`. -/
def missingLoop (known : List Int) (chunkCount : Nat) : List Int :=
  (List.range chunkCount).filterMap fun i =>
    if searchInts known (Int.ofNat i) ≥ known.length then some (Int.ofNat i) else none

/-- `Storage.GetMissingChunkNumbersForFile` (storage.go): inside one
transaction check ownership, load the FileInfo row, and collect the chunk
numbers stored for the file; then sort them and run the `sort.SearchInts`
loop over `[0, chunkCount)`. -/
def GetMissingChunkNumbersForFile (s : Storage) (userID fileID : Int) :
    Except StorageErr (List Int) :=
  match lookupA fileID s.fileInfo with
  | none => .error .notFound
  | some fi =>
    if fi.userID = userID then
      let known := sortInts (knownChunkNums fileID s.fileChunks)
      .ok (missingLoop known fi.chunkCount.toNat)
    else .error .notOwner

/-- Formalisation of the SPEC's words for the result of
`GetMissingChunkNumbersForFile`: the list of every `i` in
`[0, chunkCount)` for which no chunk row with number `i` is stored, in
ascending order ("Return `[i for i in [0, chunkCount) if i not in set]`"). -/
def missingChunksSpec (known : List Int) (chunkCount : Nat) : List Int :=
  (List.range chunkCount).filterMap fun i =>
    if Int.ofNat i ∈ known then none else some (Int.ofNat i)

/-- One storage mutation of the chunk store, as issued by an authenticated
caller: the two verbs quantified over by the quota-safety property. -/
inductive ChunkOp where
  | add (fileID chunkNumber : Int) (chunkHash : String) (chunk : List Nat)
  | remove (fileID chunkNumber : Int)
deriving DecidableEq, Repr

/-- Apply one chunk operation on behalf of `userID`. -/
def applyOp (userID : Int) (s : Storage) : ChunkOp → Except StorageErr Storage
  | .add fileID chunkNumber chunkHash chunk =>
    AddFileChunk s userID fileID chunkNumber chunkHash chunk
  | .remove fileID chunkNumber =>
    (RemoveFileChunk s userID fileID chunkNumber).map (fun r => r.2)

/-- Run a sequence of chunk operations, requiring every one to commit
successfully; `none` when some operation fails. -/
def runOps (userID : Int) (s : Storage) : List ChunkOp → Option Storage
  | [] => some s
  | op :: ops =>
    match applyOp userID s op with
    | .ok s' => runOps userID s' ops
    | .error _ => none

/-- Does the FileInfo table record `fileID` as owned by `userID`? -/
def ownsFileB (fileInfo : Table FileInfoRow) (userID fileID : Int) : Bool :=
  match lookupA fileID fileInfo with
  | some fi => fi.userID == userID
  | none => false

/-- Sum of the lengths of every stored chunk belonging to one of the
user's files: the right-hand side of invariant I1. -/
def chunkSum (fileInfo : Table FileInfoRow) (userID : Int) :
    Table FileChunkRow → Int
  | [] => 0
  | p :: rest =>
    (if ownsFileB fileInfo userID p.1 then (p.2.chunk.length : Int) else 0) +
      chunkSum fileInfo userID rest

/-! Client-side reconciliation (`runSyncFile`, `syncUploadMissing`,
`syncDownload` in cmd/freezer).  Network transfer and the local
filesystem are abstracted away: the server's answers (`FileGetResponse`
with `missingChunks`, the per-chunk hash list of `/api/chunk/{fileid}`)
and the locally computed per-chunk digests enter as parameters, and the
observable outcome of a run is the status, the change count and the list
of chunk numbers PUT to the server. -/

/-- The `FileGetResponse` the client holds for the remote file: FileInfo
fields plus the server-computed `missingChunks` list. -/
structure RemoteFile where
  fileID : Int
  fileHash : String
  lastMod : Int
  chunkCount : Nat
  missingChunks : List Int
deriving DecidableEq, Repr

/-- The four `syncStatus*` constants of cmd/freezer. -/
inductive SyncStatus where
  | missing
  | localNewer
  | remoteNewer
  | same
deriving DecidableEq, Repr

/-- The unreconciled-difference failure of `runSyncFile` (equal mod time,
nothing missing, yet contents differ). -/
inductive SyncErr where
  | unreconciled
deriving DecidableEq, Repr

/-- Observable outcome of a `runSyncFile` run: the returned status and
change count, plus the chunk numbers PUT to the server in order. -/
structure SyncResult where
  status : SyncStatus
  changeCount : Nat
  putChunks : List Nat
deriving DecidableEq, Repr

/-- Modelled from the spec: `forEachChunk` (filefreezer package, absent
from src/) "iterate[s] chunk indices 0 ≤ i < chunkCount", reading the
chunk bytes from the local file and invoking the callback on each index;
in the successful runs quantified over here every callback returns true,
so the fold visits every index. -/
def forEachChunk {σ : Type} (chunkCount : Nat) (init : σ) (cb : σ → Nat → σ) : σ :=
  (List.range chunkCount).foldl cb init

/-- `syncUploadMissing` (routes.go): iterate over ALL local chunk indices
via `forEachChunk`, PUT each chunk under `/api/chunk/...`, count each
successful upload.  Returns `(uploadCount, chunk numbers PUT)`.  The
server-reported missing-chunk list is not consulted. -/
def syncUploadMissing (localChunkCount : Nat) : Nat × List Nat :=
  forEachChunk localChunkCount (0, []) fun acc i => (acc.1 + 1, acc.2 ++ [i])

/-- `syncUpload` (routes.go): register the file then PUT every chunk
index in `[0, localChunkCount)`. -/
def syncUpload (localChunkCount : Nat) : Nat × List Nat :=
  forEachChunk localChunkCount (0, []) fun acc i => (acc.1 + 1, acc.2 ++ [i])

/-- The strict-mode per-chunk comparison of `runSyncFile`: `forEachChunk`
computes each local chunk's digest and compares it with the corresponding
entry of the remote chunk list, setting `different` and stopping at the
first mismatch — so the flag ends true exactly when some index in
`[0, localChunkCount)` mismatches. -/
def strictChunksDiffer (localChunkCount : Nat)
    (localChunkHashes remoteChunkHashes : List String) : Bool :=
  (List.range localChunkCount).any fun i =>
    localChunkHashes.getD i "" ≠ remoteChunkHashes.getD i ""

/-- The divergence-resolution tail of `runSyncFile` (routes.go lines
262-283), reached when the files were found different: newer local mod
time uploads everything after deleting the remote file, older downloads,
equal mod time with a non-empty missing list runs `syncUploadMissing`,
and otherwise the difference is unreconciled. -/
def syncDivergence (localChunkCount : Nat) (localLastMod : Int)
    (remote : RemoteFile) : Except SyncErr SyncResult :=
  if localLastMod > remote.lastMod then
    let r := syncUpload localChunkCount
    .ok ⟨.localNewer, r.1, r.2⟩
  else if localLastMod < remote.lastMod then
    .ok ⟨.remoteNewer, remote.chunkCount, []⟩
  else if remote.missingChunks.length > 0 then
    let r := syncUploadMissing localChunkCount
    .ok ⟨.missing, r.1, r.2⟩
  else .error .unreconciled

/-- `runSyncFile` (routes.go lines 215-283) for the case where both the
local and the remote file exist: when the whole-file hashes match, the
server reports nothing missing and the chunk counts agree, the files
count as unchanged unless extra-strict mode finds a per-chunk hash
mismatch — and the per-chunk comparison itself is guarded by the sanity
check `localChunkCount == len(remoteChunks.Chunks)`; any detected
difference falls through to `syncDivergence`. -/
def runSyncFileBothPresent (extraStrict : Bool) (localHash : String)
    (localChunkCount : Nat) (localLastMod : Int)
    (localChunkHashes : List String) (remote : RemoteFile)
    (remoteChunkHashes : List String) : Except SyncErr SyncResult :=
  if localHash = remote.fileHash ∧ remote.missingChunks = [] ∧
      localChunkCount = remote.chunkCount then
    let different :=
      if extraStrict then
        if localChunkCount = remoteChunkHashes.length then
          strictChunksDiffer localChunkCount localChunkHashes remoteChunkHashes
        else false
      else false
    if different = false then .ok ⟨.same, 0, []⟩
    else syncDivergence localChunkCount localLastMod remote
  else syncDivergence localChunkCount localLastMod remote

/-- Go `bytes.IndexByte`: index of the first occurrence of the byte, or
`-1` when absent. -/
def indexByte (b : Nat) : List Nat → Int
  | [] => -1
  | x :: xs =>
    if x = b then 0
    else if indexByte b xs = -1 then -1 else indexByte b xs + 1

/-- The per-chunk trim of `syncDownload` (routes.go lines 407-412): the
received chunk is cut at the first zero byte only when `bytes.IndexByte`
returned an index that is `> 0` and `< len(chunk)`; otherwise the chunk
is written in full. -/
def trimChunk (chunk : List Nat) : List Nat :=
  let eofIndex := indexByte 0 chunk
  if eofIndex > 0 ∧ eofIndex < (chunk.length : Int) then chunk.take eofIndex.toNat
  else chunk

/-- `syncDownload` (routes.go): the bytes written to the freshly truncated
local file are the received chunks, each trimmed by `trimChunk`, in
order. -/
def syncDownloadBytes (chunks : List (List Nat)) : List Nat :=
  (chunks.map trimChunk).flatten

/-! Concrete database states used by counterexamples and witnesses. -/

/-- User 1 with quota 1000, nothing allocated, owning file 10 registered
with chunkCount 2 and no stored chunks. -/
def c1State : Storage :=
  ⟨100, [(1, 1000)], [(1, ⟨0, 0⟩)], [(10, ⟨1, "f", 5, 2, "H"⟩)], []⟩

/-- Two committed chunk additions to file 10 under different chunk
numbers: 2 bytes as chunk 0, then 3 bytes as chunk 1. -/
def c1Ops : List ChunkOp := [.add 10 0 "h0" [1, 1], .add 10 1 "h1" [2, 2, 2]]

/-- The state reached by running `c1Ops` on `c1State`. -/
def c1Final : Storage :=
  ⟨100, [(1, 1000)], [(1, ⟨5, 2⟩)], [(10, ⟨1, "f", 5, 2, "H"⟩)],
    [(10, ⟨1, "h1", [2, 2, 2]⟩)]⟩

/-- User 1 owns file 10 with chunkCount 3; the FileChunks table holds a
single row for file 10 whose stored chunk number is 2. -/
def c2State : Storage :=
  ⟨100, [(1, 1000)], [(1, ⟨3, 1⟩)], [(10, ⟨1, "f", 5, 3, "H"⟩)],
    [(10, ⟨2, "h2", [1, 2, 3]⟩)]⟩

/-- The state committed by adding a 1-byte chunk numbered 5 to file 10 of
`c2State`: the file's previous row (chunk 2) is replaced outright. -/
def c9Final : Storage :=
  ⟨100, [(1, 1000)], [(1, ⟨4, 2⟩)], [(10, ⟨1, "f", 5, 3, "H"⟩)],
    [(10, ⟨5, "h5", [9]⟩)]⟩

/-- User 1 owns file 10, which has a stored chunk row numbered 0. -/
def c5State : Storage :=
  ⟨100, [(1, 1000)], [(1, ⟨3, 1⟩)], [(10, ⟨1, "f", 5, 1, "H"⟩)],
    [(10, ⟨0, "h0", [1, 2, 3]⟩)]⟩

/-! Association-list and chunk-sum lemmas. -/

theorem lookupA_insertA_self {α : Type} (k : Int) (v : α) (l : Table α) :
    lookupA k (insertA k v l) = some v := by
  simp [insertA, lookupA]

theorem lookupA_eraseA_ne {α : Type} {k k' : Int} (v : Table α) (h : k' ≠ k) :
    lookupA k (eraseA k' v) = lookupA k v := by
  induction v with
  | nil => rfl
  | cons p rest ih =>
    rcases p with ⟨pk, pv⟩
    simp only [eraseA]
    by_cases hp : pk = k'
    · rw [if_pos hp, ih]
      simp only [lookupA]
      rw [if_neg (by rw [hp]; exact h)]
    · rw [if_neg hp]
      simp only [lookupA]
      by_cases hk : pk = k
      · rw [if_pos hk, if_pos hk]
      · rw [if_neg hk, if_neg hk, ih]

theorem chunkContrib_nonneg (fiT : Table FileInfoRow) (u k : Int) (v : FileChunkRow) :
    0 ≤ (if ownsFileB fiT u k then (v.chunk.length : Int) else 0) := by
  split
  · exact Int.ofNat_nonneg _
  · exact le_refl 0

theorem chunkSum_eraseA_le (fiT : Table FileInfoRow) (u k : Int) (l : Table FileChunkRow) :
    chunkSum fiT u (eraseA k l) ≤ chunkSum fiT u l := by
  induction l with
  | nil => exact le_refl 0
  | cons p rest ih =>
    simp only [eraseA, chunkSum]
    by_cases hp : p.1 = k
    · rw [if_pos hp]
      calc chunkSum fiT u (eraseA k rest) ≤ chunkSum fiT u rest := ih
        _ ≤ _ := le_add_of_nonneg_left (chunkContrib_nonneg fiT u p.1 p.2)
    · rw [if_neg hp]
      simp only [chunkSum]
      exact add_le_add_left ih _

theorem chunkSum_deleteChunkRows_le (fiT : Table FileInfoRow) (u f n : Int)
    (l : Table FileChunkRow) :
    chunkSum fiT u (deleteChunkRows f n l) ≤ chunkSum fiT u l := by
  induction l with
  | nil => exact le_refl 0
  | cons p rest ih =>
    simp only [deleteChunkRows, chunkSum]
    by_cases hp : p.1 = f ∧ p.2.chunkNum = n
    · rw [if_pos hp]
      calc chunkSum fiT u (deleteChunkRows f n rest) ≤ chunkSum fiT u rest := ih
        _ ≤ _ := le_add_of_nonneg_left (chunkContrib_nonneg fiT u p.1 p.2)
    · rw [if_neg hp]
      simp only [chunkSum]
      exact add_le_add_left ih _

theorem chunkSum_deleteChunkRows_found (fiT : Table FileInfoRow) (u f n : Int)
    (l : Table FileChunkRow) (row : FileChunkRow)
    (hl : lookupA f l = some row) (hn : row.chunkNum = n)
    (ho : ownsFileB fiT u f = true) :
    chunkSum fiT u (deleteChunkRows f n l) + (row.chunk.length : Int) ≤
      chunkSum fiT u l := by
  induction l with
  | nil => simp [lookupA] at hl
  | cons p rest ih =>
    rcases p with ⟨pk, pv⟩
    simp only [lookupA] at hl
    by_cases hk : pk = f
    · rw [if_pos hk] at hl
      injection hl with hv
      simp only [deleteChunkRows, chunkSum]
      rw [if_pos ⟨hk, by rw [hv]; exact hn⟩]
      have hcontrib : (if ownsFileB fiT u pk then (pv.chunk.length : Int) else 0) =
          (pv.chunk.length : Int) := by
        rw [hk, if_pos ho]
      rw [hcontrib, hv]
      have := chunkSum_deleteChunkRows_le fiT u f n rest
      omega
    · rw [if_neg hk] at hl
      simp only [deleteChunkRows, chunkSum]
      rw [if_neg (fun hc => hk hc.1)]
      simp only [chunkSum]
      have := ih hl
      omega

theorem countChunkRows_ne_zero (f n : Int) (l : Table FileChunkRow) (row : FileChunkRow)
    (hl : lookupA f l = some row) (hn : row.chunkNum = n) :
    countChunkRows f n l ≠ 0 := by
  induction l with
  | nil => simp [lookupA] at hl
  | cons p rest ih =>
    rcases p with ⟨pk, pv⟩
    simp only [lookupA] at hl
    simp only [countChunkRows]
    by_cases hk : pk = f
    · rw [if_pos hk] at hl
      injection hl with hv
      subst hv
      rw [if_pos ⟨hk, hn⟩]
      omega
    · rw [if_neg hk] at hl
      have := ih hl
      omega

theorem AddFileChunk_ok_elim {s s' : Storage} {u f n : Int} {ch : String} {c : List Nat}
    (hadd : AddFileChunk s u f n ch c = .ok s') :
    ∃ fi q ui, lookupA f s.fileInfo = some fi ∧ fi.userID = u ∧
      (c.length : Int) ≤ s.chunkSize ∧
      lookupA u s.perms = some q ∧ lookupA u s.userInfo = some ui ∧
      (c.length : Int) ≤ q - ui.allocated ∧
      s' = { s with
        fileChunks := insertA f ⟨n, ch, c⟩ s.fileChunks,
        userInfo := insertA u ⟨ui.allocated + c.length, ui.revision + 1⟩ s.userInfo } := by
  simp only [AddFileChunk] at hadd
  split at hadd
  · simp at hadd
  · split at hadd
    · simp at hadd
    · rename_i fi hfi
      split at hadd
      · split at hadd
        · simp at hadd
        · rename_i hown q hq
          split at hadd
          · simp at hadd
          · rename_i ui hui
            split at hadd
            · simp at hadd
            · rename_i hsize hquota
              simp only [Except.ok.injEq] at hadd
              refine ⟨fi, q, ui, hfi, by assumption, by omega, hq, hui, by omega, hadd.symm⟩
      · simp at hadd

theorem RemoveFileChunk_ok_elim {s : Storage} {u f n : Int} {b : Bool} {s' : Storage}
    (hrem : RemoveFileChunk s u f n = .ok (b, s')) :
    ∃ fi row ui, lookupA f s.fileInfo = some fi ∧ fi.userID = u ∧
      chunkRowLookup s f n = some row ∧
      lookupA u s.userInfo = some ui ∧ b = true ∧
      s' = { s with
        fileChunks := deleteChunkRows f n s.fileChunks,
        userInfo := insertA u ⟨ui.allocated - row.chunk.length, ui.revision + 1⟩ s.userInfo } := by
  simp only [RemoveFileChunk] at hrem
  split at hrem
  · simp at hrem
  · rename_i fi hfi
    split at hrem
    · rename_i hown
      split at hrem
      · simp at hrem
      · rename_i row hrow
        split at hrem
        · simp at hrem
        · split at hrem
          · simp at hrem
          · rename_i ui hui
            simp only [Except.ok.injEq, Prod.mk.injEq] at hrem
            exact ⟨fi, row, ui, hfi, hown, hrow, hui, hrem.1.symm, hrem.2.symm⟩
    · simp at hrem

theorem applyOp_quota_step (u q : Int) (s : Storage) (op : ChunkOp) (s' : Storage)
    (a r : Int)
    (hq : lookupA u s.perms = some q)
    (hui : lookupA u s.userInfo = some ⟨a, r⟩)
    (haq : a ≤ q)
    (has : chunkSum s.fileInfo u s.fileChunks ≤ a)
    (h : applyOp u s op = .ok s') :
    s'.perms = s.perms ∧ s'.fileInfo = s.fileInfo ∧
    ∃ a' r', lookupA u s'.userInfo = some ⟨a', r'⟩ ∧ a' ≤ q ∧
      chunkSum s'.fileInfo u s'.fileChunks ≤ a' := by
  cases op with
  | add f n ch c =>
    simp only [applyOp] at h
    obtain ⟨fi, q', ui, hfi, hown, _, hq', hui', hquota, hs'⟩ := AddFileChunk_ok_elim h
    rw [hq'] at hq
    injection hq with hqq
    rw [hui'] at hui
    injection hui with huiq
    subst hs'
    refine ⟨rfl, rfl, ui.allocated + c.length, ui.revision + 1, lookupA_insertA_self u _ _,
      by omega, ?_⟩
    have hins : chunkSum s.fileInfo u (insertA f ⟨n, ch, c⟩ s.fileChunks) =
        (if ownsFileB s.fileInfo u f then ((c.length : Int)) else 0) +
          chunkSum s.fileInfo u (eraseA f s.fileChunks) := rfl
    have herase := chunkSum_eraseA_le s.fileInfo u f s.fileChunks
    have hcontrib : (if ownsFileB s.fileInfo u f then ((c.length : Int)) else 0) ≤
        (c.length : Int) := by
      split
      · exact le_refl _
      · exact Int.ofNat_nonneg _
    have hallocated : ui.allocated = a := by rw [huiq]
    rw [hins]
    omega
  | remove f n =>
    simp only [applyOp] at h
    cases hp : RemoveFileChunk s u f n with
    | error e =>
      rw [hp] at h
      simp [Except.map] at h
    | ok p =>
      rw [hp] at h
      rcases p with ⟨b, s₀⟩
      simp only [Except.map, Except.ok.injEq] at h
      subst h
      obtain ⟨fi, row, ui, hfi, hown, hrow, hui', _, hs'⟩ := RemoveFileChunk_ok_elim hp
      rw [hui'] at hui
      injection hui with huiq
      subst hs'
      have hownB : ownsFileB s.fileInfo u f = true := by
        simp [ownsFileB, hfi, hown]
      have hlook : lookupA f s.fileChunks = some row ∧ row.chunkNum = n := by
        simp only [chunkRowLookup] at hrow
        split at hrow
        · rename_i row' hrow'
          split at hrow
          · rename_i hnum
            injection hrow with hr
            subst hr
            exact ⟨hrow', hnum⟩
          · simp at hrow
        · simp at hrow
      have hdel := chunkSum_deleteChunkRows_found s.fileInfo u f n s.fileChunks row
        hlook.1 hlook.2 hownB
      have hallocated : ui.allocated = a := by rw [huiq]
      have hlen : (0 : Int) ≤ row.chunk.length := Int.ofNat_nonneg _
      refine ⟨rfl, rfl, ui.allocated - row.chunk.length, ui.revision + 1,
        lookupA_insertA_self u _ _, by omega, by simp only; omega⟩

/-- C1, as stated, is refuted: starting from user 1 with quota 1000 and
allocation 0 and file 10 with no chunks, the successful operation
sequence `c1Ops` (add 2 bytes as chunk 0, then 3 bytes as chunk 1 of the
same file) commits a state whose `allocated` is 5 while the sum of the
lengths of the chunks stored for the user's files is 3: the `FileID`-only
primary key of FileChunks makes the second add replace the first row, yet
`AddFileChunk` adds the full new length to `allocated` without
subtracting the replaced row's length. -/
theorem quota_safety_counterexample :
    ((runOps 1 c1State c1Ops).map fun s =>
        ((lookupA 1 s.userInfo).map UserInfoRow.allocated,
          chunkSum s.fileInfo 1 s.fileChunks)) = some (some 5, 3) ∧
    (5 : Int) ≠ 3 := by decide

/-- C1 (amended): for every user and every sequence of successful
`AddFileChunk` / `RemoveFileChunk` operations, after each committed
operation `UserInfo.allocated` is an upper bound on — not necessarily
equal to — the sum of the lengths of all chunks currently stored for that
user's files, and `allocated` is at most `Perms.quota`; the equality of
the original claim fails when an add replaces the file's existing chunk
row. -/
theorem quota_safety_allocated_bound (u q a r : Int) (s : Storage) (ops : List ChunkOp)
    (s' : Storage)
    (hq : lookupA u s.perms = some q)
    (hui : lookupA u s.userInfo = some ⟨a, r⟩)
    (haq : a ≤ q)
    (has : chunkSum s.fileInfo u s.fileChunks ≤ a)
    (hrun : runOps u s ops = some s') :
    ∃ a' r', lookupA u s'.userInfo = some ⟨a', r'⟩ ∧
      chunkSum s'.fileInfo u s'.fileChunks ≤ a' ∧ a' ≤ q := by
  induction ops generalizing s a r with
  | nil =>
    simp only [runOps, Option.some.injEq] at hrun
    subst hrun
    exact ⟨a, r, hui, has, haq⟩
  | cons op ops ih =>
    simp only [runOps] at hrun
    cases hop : applyOp u s op with
    | error e =>
      rw [hop] at hrun
      simp at hrun
    | ok s₁ =>
      rw [hop] at hrun
      obtain ⟨hperms, hfi, a₁, r₁, hui₁, haq₁, has₁⟩ :=
        applyOp_quota_step u q s op s₁ a r hq hui haq has hop
      exact ih a₁ r₁ s₁ (by rw [hperms]; exact hq) hui₁ haq₁ has₁ hrun

/-- Witness for the amended C1 theorem at the concrete run `c1Ops` from
`c1State` (quota 1000), whose committed result is `c1Final`. -/
theorem quota_safety_allocated_bound_witness :
    ∃ a' r', lookupA 1 c1Final.userInfo = some ⟨a', r'⟩ ∧
      chunkSum c1Final.fileInfo 1 c1Final.fileChunks ≤ a' ∧ a' ≤ 1000 :=
  quota_safety_allocated_bound 1 1000 0 0 c1State c1Ops c1Final
    (by decide) (by decide) (by decide) (by decide) (by decide)

theorem chunkRowLookup_some_elim {s : Storage} {f n : Int} {row : FileChunkRow}
    (h : chunkRowLookup s f n = some row) :
    lookupA f s.fileChunks = some row ∧ row.chunkNum = n := by
  simp only [chunkRowLookup] at h
  split at h
  · rename_i row' hrow'
    split at h
    · rename_i hnum
      injection h with hr
      subst hr
      exact ⟨hrow', hnum⟩
    · simp at h
  · simp at h

/-- C4: whenever the chunk passes the size guard, the caller owns the
file, and the quota and UserInfo rows read in the same transaction leave
`quota - allocated < len(chunk)`, `AddFileChunk` fails with
`QuotaExceeded`; the `.error` result is the transaction rollback, so no
chunk row is written and `allocated` and `revision` keep their prior
values. -/
theorem add_file_chunk_quota_guard (s : Storage) (u f n : Int) (ch : String)
    (c : List Nat) (fi : FileInfoRow) (q : Int) (ui : UserInfoRow)
    (hsize : (c.length : Int) ≤ s.chunkSize)
    (hfi : lookupA f s.fileInfo = some fi)
    (hown : fi.userID = u)
    (hq : lookupA u s.perms = some q)
    (hui : lookupA u s.userInfo = some ui)
    (hover : q - ui.allocated < (c.length : Int)) :
    AddFileChunk s u f n ch c = .error .quotaExceeded := by
  simp only [AddFileChunk, hfi, hq, hui]
  rw [if_neg (show ¬ ((c.length : Int) > s.chunkSize) by omega), if_pos hown,
    if_pos hover]

/-- Witness: user 1 with quota 10 and allocation 8 cannot add a 3-byte
chunk to their file 10. -/
theorem add_file_chunk_quota_guard_witness :
    AddFileChunk ⟨100, [(1, 10)], [(1, ⟨8, 0⟩)], [(10, ⟨1, "f", 5, 1, "H"⟩)], []⟩
      1 10 0 "h" [1, 2, 3] = .error .quotaExceeded :=
  add_file_chunk_quota_guard _ 1 10 0 "h" [1, 2, 3] ⟨1, "f", 5, 1, "H"⟩ 10 ⟨8, 0⟩
    (by decide) (by decide) rfl (by decide) (by decide) (by decide)

/-- C6: `AddFileChunk` with a chunk longer than the configured chunk size
fails with `ChunkTooLarge` for every state and every caller: the size
guard is the very first check, before the transaction even starts, so no
chunk row is written and `allocated` and `revision` are unchanged. -/
theorem add_file_chunk_size_guard (s : Storage) (u f n : Int) (ch : String)
    (c : List Nat)
    (hsize : (c.length : Int) > s.chunkSize) :
    AddFileChunk s u f n ch c = .error .chunkTooLarge := by
  simp only [AddFileChunk]
  rw [if_pos hsize]

/-- Witness: a 3-byte chunk against a server whose chunk size is 2. -/
theorem add_file_chunk_size_guard_witness :
    AddFileChunk ⟨2, [], [], [], []⟩ 1 10 0 "h" [1, 2, 3] = .error .chunkTooLarge :=
  add_file_chunk_size_guard _ 1 10 0 "h" [1, 2, 3] (by decide)

/-- C5, as stated, is refuted: `GetFileChunk` is a fileID-parameterized
storage verb, yet it takes no userID and performs no ownership check, so
a caller other than the owner does not fail with `NotOwner`: on `c5State`
the only file is owned by user 1, and `GetFileChunk` nevertheless returns
the chunk to whoever calls it. -/
theorem get_file_chunk_unguarded_counterexample :
    GetFileChunk c5State 10 0 = .ok ("h0", [1, 2, 3]) ∧
    (lookupA 10 c5State.fileInfo).map FileInfoRow.userID = some 1 := by decide

/-- C5 (amended): every fileID-parameterized storage verb that takes the
caller's userID — `GetFileInfo`, `GetMissingChunkNumbersForFile`,
`AddFileChunk` (on a chunk within the size limit, which is checked
first), and `RemoveFileChunk` — fails with `NotOwner` when the
authenticated caller differs from the file's owner, performing no state
change (the error is the rollback); `GetFileChunk` takes no userID and is
not ownership-guarded. -/
theorem ownership_guard (s : Storage) (u f n : Int) (ch : String) (c : List Nat)
    (fi : FileInfoRow)
    (hfi : lookupA f s.fileInfo = some fi)
    (hne : fi.userID ≠ u)
    (hsize : (c.length : Int) ≤ s.chunkSize) :
    GetFileInfo s u f = .error .notOwner ∧
    GetMissingChunkNumbersForFile s u f = .error .notOwner ∧
    AddFileChunk s u f n ch c = .error .notOwner ∧
    RemoveFileChunk s u f n = .error .notOwner := by
  refine ⟨?_, ?_, ?_, ?_⟩
  · simp only [GetFileInfo, hfi]
    rw [if_neg hne]
  · simp only [GetMissingChunkNumbersForFile, hfi]
    rw [if_neg hne]
  · simp only [AddFileChunk, hfi]
    rw [if_neg (show ¬ ((c.length : Int) > s.chunkSize) by omega), if_neg hne]
  · simp only [RemoveFileChunk, hfi]
    rw [if_neg hne]

/-- Witness: user 2 calling the four guarded verbs on file 10, which is
owned by user 1, fails with `NotOwner` each time. -/
theorem ownership_guard_witness :
    GetFileInfo c5State 2 10 = .error .notOwner ∧
    GetMissingChunkNumbersForFile c5State 2 10 = .error .notOwner ∧
    AddFileChunk c5State 2 10 0 "x" [9] = .error .notOwner ∧
    RemoveFileChunk c5State 2 10 0 = .error .notOwner :=
  ownership_guard c5State 2 10 0 "x" [9] ⟨1, "f", 5, 1, "H"⟩
    (by decide) (by decide) (by decide)

/-- C7: when the file's owner calls `RemoveFileChunk`, a missing chunk
row `(fileID, chunkNumber)` fails with `NotFound` and — the error being
the rollback — changes nothing; an existing row is deleted, the user's
`allocated` is decremented by exactly the old chunk's length (with the
revision bumped by one), and the call returns `true`. -/
theorem remove_file_chunk_spec (s : Storage) (u f n : Int) (fi : FileInfoRow)
    (ui : UserInfoRow)
    (hfi : lookupA f s.fileInfo = some fi)
    (hown : fi.userID = u)
    (hui : lookupA u s.userInfo = some ui) :
    (chunkRowLookup s f n = none → RemoveFileChunk s u f n = .error .notFound) ∧
    (∀ row, chunkRowLookup s f n = some row →
      RemoveFileChunk s u f n = .ok (true,
        { s with fileChunks := deleteChunkRows f n s.fileChunks,
                 userInfo :=
                   insertA u ⟨ui.allocated - row.chunk.length, ui.revision + 1⟩
                     s.userInfo })) := by
  constructor
  · intro hnone
    simp only [RemoveFileChunk, hfi, hnone]
    rw [if_pos hown]
  · intro row hrow
    obtain ⟨hlook, hnum⟩ := chunkRowLookup_some_elim hrow
    have hcount := countChunkRows_ne_zero f n s.fileChunks row hlook hnum
    simp only [RemoveFileChunk, hfi, hrow, hui]
    rw [if_pos hown, if_neg hcount]

/-- Witness: removing the stored chunk 2 of file 10 as its owner deletes
the row and gives the 3 bytes back to `allocated`; removing the absent
chunk 1 fails with `NotFound`. -/
theorem remove_file_chunk_spec_witness :
    RemoveFileChunk c2State 1 10 2 =
      .ok (true, ⟨100, [(1, 1000)], [(1, ⟨0, 2⟩)], [(10, ⟨1, "f", 5, 3, "H"⟩)], []⟩) ∧
    RemoveFileChunk c2State 1 10 1 = .error .notFound := by
  constructor
  · have h := (remove_file_chunk_spec c2State 1 10 2 ⟨1, "f", 5, 3, "H"⟩ ⟨3, 1⟩
      (by decide) (by decide) (by decide)).2 ⟨2, "h2", [1, 2, 3]⟩ (by decide)
    rw [h]
    decide
  · exact (remove_file_chunk_spec c2State 1 10 1 ⟨1, "f", 5, 3, "H"⟩ ⟨3, 1⟩
      (by decide) (by decide) (by decide)).1 (by decide)

/-- C9: the FileChunks primary key is `FileID` alone, so a successful
`AddFileChunk` leaves the file with exactly the new row — replacing any
previously stored chunk of that file regardless of its chunk number — and
afterwards `GetFileChunk` succeeds only at the new chunk number and fails
with `NotFound` at every other one. -/
theorem add_file_chunk_single_row (s s' : Storage) (u f n : Int) (ch : String)
    (c : List Nat)
    (hadd : AddFileChunk s u f n ch c = .ok s') :
    s'.fileChunks = insertA f ⟨n, ch, c⟩ s.fileChunks ∧
    GetFileChunk s' f n = .ok (ch, c) ∧
    ∀ m, m ≠ n → GetFileChunk s' f m = .error .notFound := by
  obtain ⟨fi, q, ui, hfi, hown, hsz, hq, hui, hquota, hs'⟩ := AddFileChunk_ok_elim hadd
  subst hs'
  refine ⟨rfl, ?_, ?_⟩
  · simp [GetFileChunk, chunkRowLookup, lookupA_insertA_self]
  · intro m hm
    simp only [GetFileChunk, chunkRowLookup, lookupA_insertA_self]
    rw [if_neg (show ¬ (FileChunkRow.mk n ch c).chunkNum = m from fun hc => hm (hc.symm))]

/-- Witness: adding a 1-byte chunk numbered 5 to file 10 of `c2State`
(which stored chunk 2) commits `c9Final`: the old row is gone, chunk 5 is
readable, chunk 2 is `NotFound`. -/
theorem add_file_chunk_single_row_witness :
    c9Final.fileChunks = insertA 10 ⟨5, "h5", [9]⟩ c2State.fileChunks ∧
    GetFileChunk c9Final 10 5 = .ok ("h5", [9]) ∧
    GetFileChunk c9Final 10 2 = .error .notFound := by
  have h := add_file_chunk_single_row c2State c9Final 1 10 5 "h5" [9] (by decide)
  exact ⟨h.1, h.2.1, h.2.2 2 (by decide)⟩

/-- C2: the claim is right and the code is wrong. The loop of
`GetMissingChunkNumbersForFile` tests only
`sort.SearchInts(knownChunks, i) >= len(knownChunks)`, i.e. whether `i`
exceeds every stored chunk number, instead of testing membership, so on
`c2State` — file 10 with chunkCount 3 and only chunk number 2 stored —
the code reports nothing missing although the spec's own definition
(`missingChunksSpec`) yields `[0, 1]`. -/
theorem get_missing_chunks_search_bug :
    GetMissingChunkNumbersForFile c2State 1 10 = .ok [] ∧
    missingChunksSpec (knownChunkNums 10 c2State.fileChunks) 3 = [0, 1] ∧
    ([] : List Int) ≠ [0, 1] := by decide

theorem upload_fold_eq (n k : Nat) (l : List Nat) :
    (List.range n).foldl (fun acc i => (acc.1 + 1, acc.2 ++ [i])) (k, l) =
      (k + n, l ++ List.range n) := by
  induction n generalizing k l with
  | zero => simp
  | succ m ih =>
    rw [List.range_succ, List.foldl_append, ih]
    simp [List.range_succ]
    omega

theorem syncUploadMissing_eq (n : Nat) :
    syncUploadMissing n = (n, List.range n) := by
  have h := upload_fold_eq n 0 []
  simpa [syncUploadMissing, forEachChunk] using h

/-- C3, as stated, is refuted: with the local and remote files differing
(whole-file hash equal but `missingChunks = [1]` non-empty), equal
lastMod, and localChunkCount 3, `runSyncFile` returns status Missing but
`syncUploadMissing` PUTs chunks `[0, 1, 2]` — every local chunk — and
reports 3 uploads, not the single chunk `1` listed in `missingChunks`. -/
theorem sync_upload_missing_counterexample :
    runSyncFileBothPresent true "H" 3 5 ["a", "b", "c"] ⟨10, "H", 5, 3, [1]⟩
      ["a", "b", "c"] = .ok ⟨.missing, 3, [0, 1, 2]⟩ ∧
    ([0, 1, 2] : List Nat) ≠ [1] ∧ (3 : Nat) ≠ 1 := by decide

/-- C3 (amended): when both files exist and differ, the local and remote
lastMod are equal, and `remote.missingChunks` is non-empty, `runSyncFile`
invokes `syncUploadMissing`, which uploads ALL local chunks
`0 ≤ i < localChunkCount` — a superset of the chunks listed in
`missingChunks`, not exactly that list — and returns status Missing
together with the number of chunks uploaded (`localChunkCount` when every
upload succeeds). -/
theorem sync_upload_missing_uploads_all (es : Bool) (lh : String) (lcc : Nat)
    (lm : Int) (lch : List String) (remote : RemoteFile) (rch : List String)
    (hmod : lm = remote.lastMod)
    (hmiss : remote.missingChunks ≠ []) :
    runSyncFileBothPresent es lh lcc lm lch remote rch =
      .ok ⟨.missing, lcc, List.range lcc⟩ := by
  have hcond : ¬ (lh = remote.fileHash ∧ remote.missingChunks = [] ∧
      lcc = remote.chunkCount) := fun hc => hmiss hc.2.1
  simp only [runSyncFileBothPresent, syncDivergence]
  rw [if_neg hcond, if_neg (by omega), if_neg (by omega),
    if_pos (List.length_pos.mpr hmiss), syncUploadMissing_eq]

/-- Witness for the amended C3 theorem at the concrete inputs of the
counterexample. -/
theorem sync_upload_missing_uploads_all_witness :
    runSyncFileBothPresent true "H" 3 5 ["a", "b", "c"] ⟨10, "H", 5, 3, [1]⟩
      ["a", "b", "c"] = .ok ⟨.missing, 3, List.range 3⟩ :=
  sync_upload_missing_uploads_all true "H" 3 5 ["a", "b", "c"] ⟨10, "H", 5, 3, [1]⟩
    ["a", "b", "c"] (by decide) (by decide)

/-- C10: in extra-strict mode, when the whole-file hashes match,
`remote.missingChunks` is empty and the chunk counts agree, but the
remote per-chunk hash list has a number of entries different from
`localChunkCount`, the sanity check
`localChunkCount == len(remoteChunks.Chunks)` skips the per-chunk
comparison entirely — the result is `(Same, 0)` whatever the local
per-chunk hashes are. -/
theorem run_sync_strict_sanity_skip (lh : String) (lcc : Nat) (lm : Int)
    (remote : RemoteFile) (rch : List String) (lch : List String)
    (hh : lh = remote.fileHash)
    (hm : remote.missingChunks = [])
    (hc : lcc = remote.chunkCount)
    (hlen : rch.length ≠ lcc) :
    runSyncFileBothPresent true lh lcc lm lch remote rch = .ok ⟨.same, 0, []⟩ := by
  simp only [runSyncFileBothPresent]
  rw [if_pos ⟨hh, hm, hc⟩,
    if_neg (show ¬ lcc = rch.length from fun hcc => hlen hcc.symm)]
  simp

/-- Witness: local hashes are present and arbitrary, the remote chunk
list is empty while `localChunkCount = 3`, and the run still reports
`(Same, 0)` without any comparison. -/
theorem run_sync_strict_sanity_skip_witness :
    runSyncFileBothPresent true "H" 3 5 ["x", "y", "z"] ⟨10, "H", 7, 3, []⟩ [] =
      .ok ⟨.same, 0, []⟩ :=
  run_sync_strict_sanity_skip "H" 3 5 ⟨10, "H", 7, 3, []⟩ [] ["x", "y", "z"]
    (by decide) (by decide) (by decide) (by decide)

theorem indexByte_ge_neg_one (b : Nat) (l : List Nat) : -1 ≤ indexByte b l := by
  induction l with
  | nil => simp [indexByte]
  | cons x xs ih =>
    simp only [indexByte]
    split
    · omega
    · split
      · omega
      · omega

theorem indexByte_lt_length (b : Nat) (l : List Nat) :
    indexByte b l < (l.length : Int) := by
  induction l with
  | nil => simp [indexByte]
  | cons x xs ih =>
    simp only [indexByte, List.length_cons]
    split
    · push_cast
      omega
    · split
      · push_cast
        omega
      · push_cast at ih ⊢
        omega

theorem indexByte_take_eq_takeWhile (l : List Nat) (h : 0 ≤ indexByte 0 l) :
    l.take (indexByte 0 l).toNat = l.takeWhile (fun b => b != 0) := by
  induction l with
  | nil => simp
  | cons x xs ih =>
    by_cases hx : x = 0
    · subst hx
      simp [indexByte, List.takeWhile_cons]
    · have hne : (x != 0) = true := by simpa using hx
      simp only [indexByte, if_neg hx] at h ⊢
      by_cases hsub : indexByte 0 xs = -1
      · rw [if_pos hsub] at h
        omega
      · rw [if_neg hsub] at h ⊢
        have hsub0 : 0 ≤ indexByte 0 xs := by
          have := indexByte_ge_neg_one 0 xs
          omega
        rw [show (indexByte 0 xs + 1).toNat = (indexByte 0 xs).toNat + 1 by omega]
        simp [List.take_succ_cons, List.takeWhile_cons, hne, ih hsub0]

/-- C8, as stated, is refuted: a received chunk whose FIRST byte is zero
is not truncated at that zero — the guard `eofIndex > 0` in
`syncDownload` excludes index 0 — so the chunk `[0, 1]` is written in
full although truncation at the first zero byte would write `[]`. -/
theorem trim_chunk_counterexample :
    trimChunk [0, 1] = [0, 1] ∧
    List.takeWhile (fun b => b != 0) [0, 1] = ([] : List Nat) ∧
    ([0, 1] : List Nat) ≠ [] ∧
    syncDownloadBytes [[0, 1]] = [0, 1] := by decide

/-- C8 (amended): for every chunk received by `syncDownload`, the client
truncates the chunk at the first zero byte before writing it only when
that first zero occurs at a positive index (then the bytes written are
the prefix of non-zero bytes); a chunk containing no zero byte — and
likewise a chunk whose very first byte is zero — is written in full. -/
theorem trim_chunk_spec (chunk : List Nat) :
    (indexByte 0 chunk ≤ 0 → trimChunk chunk = chunk) ∧
    (0 < indexByte 0 chunk →
      trimChunk chunk = chunk.takeWhile (fun b => b != 0)) := by
  constructor
  · intro h
    simp only [trimChunk]
    rw [if_neg (by omega)]
  · intro h
    have hlt := indexByte_lt_length 0 chunk
    simp only [trimChunk]
    rw [if_pos ⟨h, hlt⟩]
    exact indexByte_take_eq_takeWhile chunk (by omega)

/-- Witness: `[5, 0, 7]` has its first zero at index 1 and is trimmed to
the non-zero prefix; `[0, 1]` starts with a zero and is kept whole. -/
theorem trim_chunk_spec_witness :
    trimChunk [5, 0, 7] = List.takeWhile (fun b => b != 0) [5, 0, 7] ∧
    trimChunk [0, 1] = [0, 1] :=
  ⟨(trim_chunk_spec [5, 0, 7]).2 (by decide), (trim_chunk_spec [0, 1]).1 (by decide)⟩

end Filefreezer
